import Mathlib

/-!
Verification of the ManBot manifest pipeline.

Shallow embedding of the repository's two source files:
  * `src/network/github.py` — `GitHubAPI.check_rate_limit`,
    `GitHubAPI.get_latest_repo_info`, `GitHubAPI.fetch_file`;
  * `bot.py` — `AutoSelectOnekeyApp.handle_depot_files`.

Network I/O is modelled by explicit oracles (functions from call data to
results), the local manifest store by an association list from paths to
byte lists, and Python exceptions by `Except`.  Helper code that the
repository imports from modules not present here (`parse_manifest_filename`,
`parse_key_file`, the configuration constants) is either modelled from the
specification or abstracted into parameters, as documented on each
definition.
-/

namespace ManBot

/-! ## String primitives

The embedding re-implements the handful of string operations the source
uses (`endswith`, `split`, `lower`, `in`, `int(...)`, digit tests) as
structural recursions over the character list of a `String`, so that every
definition evaluates inside the kernel on concrete inputs. -/

/-- Embeds Python's `s.endswith(suf)`. -/
def strEndsWith (s suf : String) : Bool := suf.data.isSuffixOf s.data

/-- Drop the last `n` characters of `s`. -/
def strDropRight (s : String) (n : Nat) : String :=
  ⟨s.data.take (s.data.length - n)⟩

/-- Fuel-driven worker for `strSplitOn`: scan the character list, cutting
at each occurrence of the (non-empty) separator. -/
def splitOnFuel (sep : List Char) : Nat → List Char → List Char → List (List Char)
  | 0, l, acc => [acc.reverse ++ l]
  | fuel + 1, l, acc =>
    match l with
    | [] => [acc.reverse]
    | c :: rest =>
      if sep.isPrefixOf (c :: rest) then
        acc.reverse :: splitOnFuel sep fuel ((c :: rest).drop sep.length) []
      else
        splitOnFuel sep fuel rest (c :: acc)

/-- Embeds Python's `s.split(sep)` for a non-empty separator. -/
def strSplitOn (s sep : String) : List String :=
  (splitOnFuel sep.data (s.data.length + 1) s.data []).map (fun l => ⟨l⟩)

/-- Embeds Python's `s.lower()`. -/
def strToLower (s : String) : String := ⟨s.data.map Char.toLower⟩

/-- All characters of `s` are decimal digits. -/
def strAllDigit (s : String) : Bool := s.data.all Char.isDigit

/-- Embeds Python's `int(s)` on strings of decimal digits. -/
def strToNatVal (s : String) : Nat :=
  s.data.foldl (fun n c => n * 10 + (c.toNat - 48)) 0

/-! ## Time formatting (`time.strftime` / `time.localtime`)

`check_rate_limit` formats the reset epoch with
`time.strftime("%Y-%m-%d %H:%M:%S", time.localtime(reset_time))`.
We embed this with the local timezone taken to be UTC (the timezone is
host configuration, not part of the program); the civil-date conversion
is the standard days-to-date algorithm on floor-divided epoch seconds. -/

def pad2 (n : Int) : String :=
  if n < 10 then "0" ++ toString n else toString n

def civilFromDays (z0 : Int) : Int × Int × Int :=
  let z := z0 + 719468
  let era := Int.fdiv z 146097
  let doe := z - era * 146097
  let yoe := Int.fdiv (doe - Int.fdiv doe 1460 + Int.fdiv doe 36524 - Int.fdiv doe 146096) 365
  let y := yoe + era * 400
  let doy := doe - (365 * yoe + Int.fdiv yoe 4 - Int.fdiv yoe 100)
  let mp := Int.fdiv (5 * doy + 2) 153
  let d := doy - Int.fdiv (153 * mp + 2) 5 + 1
  let m := mp + (if mp < 10 then 3 else -9)
  (y + (if m ≤ 2 then 1 else 0), m, d)

def strftimeYmdHMS (t : Int) : String :=
  let days := Int.fdiv t 86400
  let secs := Int.emod t 86400
  let hh := Int.fdiv secs 3600
  let mm := Int.fdiv (Int.emod secs 3600) 60
  let ss := Int.emod secs 60
  let ymd := civilFromDays days
  toString ymd.1 ++ "-" ++ pad2 ymd.2.1 ++ "-" ++ pad2 ymd.2.2 ++ " " ++
    pad2 hh ++ ":" ++ pad2 mm ++ ":" ++ pad2 ss

/-! ## `check_rate_limit` (src/network/github.py lines 25-57)

The HTTP exchange is modelled by an `Except String RateResp` value: a
`.error e` is an exception raised by `client.get` / `r.json()` (caught by
the `except` clause), a `.ok` carries the status code and the parsed JSON
body.  The JSON body is modelled to the depth the function reads it:
an optional `"rate"` object with four optional integer fields, matching
the chain of `.get(..., default)` calls in the source. -/

structure RateObj where
  remaining : Option Int
  limit : Option Int
  reset : Option Int
  used : Option Int
deriving DecidableEq, Repr

structure RateBody where
  rate : Option RateObj
deriving DecidableEq, Repr

structure RateResp where
  status_code : Nat
  body : RateBody
deriving DecidableEq, Repr

structure RateLimitStatus where
  limit : Int
  remaining : Int
  reset : Int
  used : Int
  reset_formatted : String
  reset_relative : String
deriving DecidableEq, Repr

inductive RateLimitResult where
  | ok (s : RateLimitStatus)
  | error (msg : String)
deriving DecidableEq, Repr

def RateLimitResult.isError : RateLimitResult → Bool
  | .error _ => true
  | .ok _ => false

def check_rate_limit (r : Except String RateResp) : RateLimitResult :=
  match r with
  | .error e => .error ("Rate limit check failed: " ++ e)
  | .ok resp =>
    if resp.status_code ≠ 200 then
      .error ("GitHub rate limit check failed with status " ++ toString resp.status_code)
    else
      let rate := resp.body.rate.getD ⟨none, none, none, none⟩
      let remaining := rate.remaining.getD 0
      let limit := rate.limit.getD 60
      let reset_time := rate.reset.getD 0
      .ok ⟨limit, remaining, reset_time, rate.used.getD 0,
           strftimeYmdHMS reset_time, "<t:" ++ toString reset_time ++ ":R>"⟩

/-! ## `get_latest_repo_info` (src/network/github.py lines 60-88)

One branch lookup (`client.get` on `/repos/{repo}/branches/{app_id}`,
followed by JSON access and date parsing) is modelled by a
`BranchResult`: `.exn` is any exception caught by the `except` clause,
`.httpError` a non-200 status, `.noCommit` a 200 body without a
`"commit"` key, and `.ok date sha` a successful parse, with the
timezone-aware timestamp ordered as an integer. -/

inductive BranchResult where
  | exn (msg : String)
  | httpError (status : Nat)
  | noCommit
  | ok (date : Int) (sha : String)
deriving DecidableEq, Repr

structure RepoInfo where
  name : String
  last_update : Int
  sha : String
deriving DecidableEq, Repr

structure SelState where
  latest_date : Option Int
  selected_repo : Option String
  selected_sha : Option String
deriving DecidableEq, Repr

def selStep (query : String → BranchResult) (s : SelState) (repo : String) : SelState :=
  match query repo with
  | .ok date sha =>
    match s.latest_date with
    | none => ⟨some date, some repo, some sha⟩
    | some d => if d < date then ⟨some date, some repo, some sha⟩ else s
  | _ => s

def get_latest_repo_info (query : String → BranchResult) (repos : List String) :
    Option RepoInfo :=
  let s := repos.foldl (selStep query) ⟨none, none, none⟩
  match s.selected_repo, s.latest_date, s.selected_sha with
  | some r, some d, some sh => if r = "" then none else some ⟨r, d, sh⟩
  | _, _, _ => none

/-- Whether one branch lookup succeeded (status 200, commit present, date parsed). -/
def BranchResult.isOkB : BranchResult → Bool
  | .ok _ _ => true
  | _ => false

/-- The date of a successful lookup is below the bound `d` (vacuous on failures). -/
def BranchResult.dateLt : BranchResult → Int → Bool
  | .ok d' _, d => d' < d
  | _, _ => true

/-- The date of a successful lookup is at most the bound `d` (vacuous on failures). -/
def BranchResult.dateLe : BranchResult → Int → Bool
  | .ok d' _, d => d' ≤ d
  | _, _ => true

/-! ## `fetch_file` (src/network/github.py lines 90-104)

Each `client.get` call is modelled by an oracle `net : Nat → CallResult`
indexed by how many requests have been issued so far; `.resp s c` is a
response with status `s` and body bytes `c`, `.exn` an exception caught
by the inner `except`.  The function returns the outcome together with
the total number of requests issued. -/

inductive CallResult where
  | resp (status : Nat) (content : List Nat)
  | exn (msg : String)
deriving DecidableEq, Repr

def CallResult.isOk200 : CallResult → Bool
  | .resp s _ => s == 200
  | .exn _ => false

def tryEndpoints (net : Nat → CallResult) (k : Nat) : List String → Option (List Nat) × Nat
  | [] => (none, k)
  | _cdn :: rest =>
    match net k with
    | .resp s c => if s = 200 then (some c, k + 1) else tryEndpoints net (k + 1) rest
    | .exn _ => tryEndpoints net (k + 1) rest

def tryRounds (net : Nat → CallResult) (cdns : List String) : Nat → Nat → Option (List Nat) × Nat
  | k, 0 => (none, k)
  | k, n + 1 =>
    match tryEndpoints net k cdns with
    | (some c, k') => (some c, k')
    | (none, k') => tryRounds net cdns k' n

def fetch_file (net : Nat → CallResult) (is_cn : Bool)
    (cn_cdn_list global_cdn_list : List String) (path : String) :
    Except String (List Nat) × Nat :=
  let cdn_list := if is_cn then cn_cdn_list else global_cdn_list
  match tryRounds net cdn_list 0 3 with
  | (some c, k) => (Except.ok c, k)
  | (none, k) => (Except.error ("无法下载文件: " ++ path), k)

/-! ## `handle_depot_files` (bot.py lines 74-122)

The method is embedded as a function of an environment `Env` (the
network and configuration the run sees) and the initial local state: the
manifest store (`fs`, an association list from save paths to byte lists,
standing for the `manifests/` directory) and the `downloaded_files` set.
Network effects performed by the method itself are recorded in a trace.

Pieces of the repository that bot.py imports from modules not present in
the sources are handled as follows:
  * `REPO_LIST` (src/constants.py) is the `repos` field of `Env`;
  * `parse_key_file` (src/utils/steam.py) is the `parse_key_file` field
    of `Env` — no claim depends on its output, so the embedding is
    parametric in it;
  * `parse_manifest_filename` (src/utils/steam.py) is modelled from the
    spec below. -/

/-- Modelled from the spec: `parse_manifest_filename` from
`src/utils/steam.py` is imported by bot.py but its source is not in the
repository snapshot.  Per the spec (§3, §4.5, §6): the convention is
`<depotId>_<manifestId>.manifest` with both tokens numeric strings,
extracted positionally, and the result is `(none, none)` on any name that
does not match the convention. -/
def parse_manifest_filename (name : String) : Option String × Option String :=
  if strEndsWith name ".manifest" then
    match strSplitOn (strDropRight name 9) "_" with
    | [d, m] =>
      if d ≠ "" ∧ m ≠ "" ∧ strAllDigit d ∧ strAllDigit m then
        (some d, some m)
      else (none, none)
    | _ => (none, none)
  else (none, none)

/-- A depot-key pair produced by the key-file parser: `(depotId, decryptionKey)`. -/
abbrev DepotKeyEntry := String × String

/-- Substring test, embedding Python's `"key.vdf" in file_path.lower()`. -/
def containsSub (s pat : String) : Bool := (strSplitOn s pat).length ≠ 1

/-- The local save path of a tree entry: `manifest_dir / file_path` with
`manifest_dir = Path("manifests")`. -/
def savePath (p : String) : String := "manifests/" ++ p

def lookupFs : List (String × List Nat) → String → Option (List Nat)
  | [], _ => none
  | (k, v) :: rest, q => if k = q then some v else lookupFs rest q

def setFs : List (String × List Nat) → String → List Nat → List (String × List Nat)
  | [], q, c => [(q, c)]
  | (k, v) :: rest, q, c => if k = q then (k, c) :: rest else (k, v) :: setFs rest q c

/-- Append `m` to the depot map entry of `d`, creating the entry if absent
(`depot_map.setdefault(depot_id, []).append(manifest_id)`; Python dicts
keep insertion order, modelled by an association list). -/
def appendDepot : List (String × List String) → String → String → List (String × List String)
  | [], d, m => [(d, [m])]
  | (k, v) :: rest, d, m =>
    if k = d then (k, v ++ [m]) :: rest else (k, v) :: appendDepot rest d m

/-- Network events performed by `handle_depot_files` itself (the branch
lookup of line 91, the tree fetch of line 95, and each CDN content fetch). -/
inductive NetEvent where
  | branch
  | tree
  | content (path : String)
deriving DecidableEq, Repr

/-- The environment one `handle_depot_files` run sees: the configured
candidate list, the branch-lookup oracle used by `get_latest_repo_info`,
the outcomes of the branch and tree requests (lines 90-96, with
`raise_for_status` failures as `.error`), the CDN fetch oracle (the
outcome of `GitHubAPI.fetch_file` for a path of the selected commit), and
the key-file parser. -/
structure Env where
  repos : List String
  query : String → BranchResult
  branch : Except String Unit
  tree : Except String (List String)
  fetch : String → Except String (List Nat)
  parse_key_file : List Nat → List DepotKeyEntry

/-- Mutable state of the tree-walking loop (bot.py lines 98-117). -/
structure WalkSt where
  fs : List (String × List Nat)
  downloaded : List String
  depot_list : List DepotKeyEntry
  depot_map : List (String × List String)
  trace : List NetEvent
deriving DecidableEq, Repr

/-- Effect of lines 111-113 on the depot map: parse the filename and, when
both components are truthy, append the manifest id under the depot id. -/
def updMap (mp : List (String × List String)) (p : String) : List (String × List String) :=
  match parse_manifest_filename p with
  | (some d, some m) => if d ≠ "" ∧ m ≠ "" then appendDepot mp d m else mp
  | _ => mp

/-- The loop body over the tree entries (bot.py lines 98-117). -/
def walk (env : Env) : List String → WalkSt → Except String WalkSt
  | [], st => .ok st
  | p :: rest, st =>
    if strEndsWith p ".manifest" then
      match
        (if (lookupFs st.fs (savePath p)).isSome then
          Except.ok st
        else
          match env.fetch p with
          | .error e => Except.error e
          | .ok c =>
            Except.ok { st with
              fs := setFs st.fs (savePath p) c,
              downloaded := st.downloaded ++ [p],
              trace := st.trace ++ [NetEvent.content p] }) with
      | .error e => .error e
      | .ok st1 => walk env rest { st1 with depot_map := updMap st1.depot_map p }
    else if containsSub (strToLower p) "key.vdf" then
      match env.fetch p with
      | .error e => .error e
      | .ok c =>
        walk env rest { st with
          depot_list := st.depot_list ++ env.parse_key_file c,
          trace := st.trace ++ [NetEvent.content p] }
    else
      walk env rest st

/-- Integer value of a manifest-id string, embedding Python's `int(x)`
on the numeric-string tokens the classifier produces. -/
def intVal (s : String) : Nat := strToNatVal s

/-- Stable insertion keeping the list sorted by `intVal` descending: the
new element goes after every element whose key is `≥` its own. -/
def insertDesc (x : String) : List String → List String
  | [] => [x]
  | y :: ys => if intVal y < intVal x then x :: y :: ys else y :: insertDesc x ys

/-- The final per-depot sort (bot.py line 120):
`depot_map[depot_id].sort(key=lambda x: int(x), reverse=True)` — a stable
sort, descending by integer value. -/
def sortManifests (l : List String) : List String :=
  l.foldl (fun acc x => insertDesc x acc) []

/-- Result of one `handle_depot_files` run. -/
structure RunResult where
  depot_list : List DepotKeyEntry
  depot_map : List (String × List String)
  fs : List (String × List Nat)
  downloaded : List String
  trace : List NetEvent
deriving DecidableEq, Repr

/-- Embedding of `AutoSelectOnekeyApp.handle_depot_files` (bot.py lines
74-122): select a repository; on no match return the empty results
untouched; otherwise resolve the branch and the tree (each
`raise_for_status` failure propagating), walk the tree, and finally sort
every depot's manifest list descending by integer value. -/
def handle_depot_files (env : Env) (fs0 : List (String × List Nat))
    (dl0 : List String) : Except String RunResult :=
  match get_latest_repo_info env.query env.repos with
  | none => .ok ⟨[], [], fs0, dl0, []⟩
  | some _ =>
    match env.branch with
    | .error e => .error e
    | .ok _ =>
      match env.tree with
      | .error e => .error e
      | .ok tree =>
        match walk env tree ⟨fs0, dl0, [], [], [NetEvent.branch, NetEvent.tree]⟩ with
        | .error e => .error e
        | .ok st =>
          .ok ⟨st.depot_list, st.depot_map.map (fun kv => (kv.1, sortManifests kv.2)),
               st.fs, st.downloaded, st.trace⟩

/-- Depot map of a run outcome (empty on a failed run); projection used to
state concrete examples. -/
def depotMapOf : Except String RunResult → List (String × List String)
  | .ok r => r.depot_map
  | .error _ => []

/-! ## Lemmas about the repository selector -/

theorem selStep_of_not_ok {query : String → BranchResult} {s : SelState} {repo : String}
    (h : (query repo).isOkB = false) : selStep query s repo = s := by
  unfold selStep
  cases hq : query repo with
  | ok d sh => rw [hq] at h; simp [BranchResult.isOkB] at h
  | exn m => rfl
  | httpError c => rfl
  | noCommit => rfl

theorem foldl_selStep_of_no_ok {query : String → BranchResult} :
    ∀ (l : List String) (s : SelState), (∀ r ∈ l, (query r).isOkB = false) →
      l.foldl (selStep query) s = s := by
  intro l
  induction l with
  | nil => intro s _; rfl
  | cons a l ih =>
    intro s h
    rw [List.foldl_cons, selStep_of_not_ok (h a (by simp))]
    exact ih s (fun r hr => h r (by simp [hr]))

theorem foldl_selStep_filter (query : String → BranchResult) :
    ∀ (l : List String) (s : SelState),
      l.foldl (selStep query) s =
        (l.filter (fun r => (query r).isOkB)).foldl (selStep query) s := by
  intro l
  induction l with
  | nil => intro s; rfl
  | cons a l ih =>
    intro s
    by_cases h : (query a).isOkB = true
    · simp only [List.filter_cons, h, if_pos, List.foldl_cons]
      exact ih (selStep query s a)
    · have h' : (query a).isOkB = false := by simpa using h
      simp only [List.filter_cons, h', List.foldl_cons, selStep_of_not_ok h',
        Bool.false_eq_true, if_false]
      exact ih s

theorem foldl_selStep_dateLt {query : String → BranchResult} {d : Int} :
    ∀ (l : List String) (s : SelState), (∀ r ∈ l, (query r).dateLt d = true) →
      (∀ x, s.latest_date = some x → x < d) →
      ∀ x, (l.foldl (selStep query) s).latest_date = some x → x < d := by
  intro l
  induction l with
  | nil => intro s _ hs; exact hs
  | cons a l ih =>
    intro s h hs
    rw [List.foldl_cons]
    refine ih (selStep query s a) (fun r hr => h r (by simp [hr])) ?_
    have ha : (query a).dateLt d = true := h a (by simp)
    unfold selStep
    cases hq : query a with
    | ok d' sh' =>
      rw [hq] at ha
      have hd' : d' < d := by simpa [BranchResult.dateLt] using ha
      cases hl : s.latest_date with
      | none => intro x hx; simp at hx; omega
      | some dd =>
        by_cases hlt : dd < d'
        · simp only [hlt, if_pos]
          intro x hx; simp at hx; omega
        · simp only [hlt, if_false]
          exact hs
    | exn m => exact hs
    | httpError c => exact hs
    | noCommit => exact hs

theorem selStep_wins {query : String → BranchResult} {s : SelState} {r : String}
    {d : Int} {sh : String}
    (hs : ∀ x, s.latest_date = some x → x < d) (hq : query r = BranchResult.ok d sh) :
    selStep query s r = ⟨some d, some r, some sh⟩ := by
  unfold selStep
  rw [hq]
  cases hl : s.latest_date with
  | none => rfl
  | some dd =>
    have : dd < d := hs dd hl
    simp [this]

theorem foldl_selStep_keeps {query : String → BranchResult} {d : Int} {r sh : String} :
    ∀ (l : List String), (∀ x ∈ l, (query x).dateLe d = true) →
      l.foldl (selStep query) ⟨some d, some r, some sh⟩ = ⟨some d, some r, some sh⟩ := by
  intro l
  induction l with
  | nil => intro _; rfl
  | cons a l ih =>
    intro h
    rw [List.foldl_cons]
    have step : selStep query ⟨some d, some r, some sh⟩ a = ⟨some d, some r, some sh⟩ := by
      unfold selStep
      cases hq : query a with
      | ok d' sh' =>
        have ha : (query a).dateLe d = true := h a (by simp)
        rw [hq] at ha
        have hd' : d' ≤ d := by simpa [BranchResult.dateLe] using ha
        have : ¬ d < d' := by omega
        simp [this]
      | exn m => rfl
      | httpError c => rfl
      | noCommit => rfl
    rw [step]
    exact ih (fun x hx => h x (by simp [hx]))

/-! ## Lemmas about the CDN fetcher -/

theorem tryEndpoints_all_fail {net : Nat → CallResult} :
    ∀ (l : List String) (k : Nat),
      (∀ j, k ≤ j → j < k + l.length → (net j).isOk200 = false) →
      tryEndpoints net k l = (none, k + l.length) := by
  intro l
  induction l with
  | nil => intro k _; rfl
  | cons c rest ih =>
    intro k h
    have hk : (net k).isOk200 = false := h k (le_refl k) (by simp)
    unfold tryEndpoints
    cases hq : net k with
    | resp s b =>
      rw [hq] at hk
      have hs : ¬ s = 200 := by simpa [CallResult.isOk200] using hk
      simp only [hs, if_false]
      rw [ih (k + 1) (fun j h1 h2 => h j (by omega) (by simp; omega))]
      simp; omega
    | exn m =>
      rw [ih (k + 1) (fun j h1 h2 => h j (by omega) (by simp; omega))]
      simp; omega

theorem tryRounds_all_fail {net : Nat → CallResult} {cdns : List String} :
    ∀ (n k : Nat),
      (∀ j, k ≤ j → j < k + n * cdns.length → (net j).isOk200 = false) →
      tryRounds net cdns k n = (none, k + n * cdns.length) := by
  intro n
  induction n with
  | zero => intro k _; simp [tryRounds]
  | succ n ih =>
    intro k h
    rw [Nat.succ_mul] at h ⊢
    unfold tryRounds
    rw [tryEndpoints_all_fail cdns k (fun j h1 h2 => h j h1 (by omega))]
    show tryRounds net cdns (k + cdns.length) n = _
    rw [ih (k + cdns.length) (fun j h1 h2 => h j (by omega) (by omega))]
    simp; omega

/-- C2: when every request fails (non-200 status or an exception) across
all rounds, `fetch_file` issues exactly `3 × |endpoints|` requests over
the selected CDN list and fails with the error message naming the
requested path; it never succeeds within that run. -/
theorem fetch_file_all_fail (net : Nat → CallResult) (is_cn : Bool)
    (cn_cdn_list global_cdn_list : List String) (path : String)
    (h : ∀ k, k < 3 * (if is_cn then cn_cdn_list else global_cdn_list).length →
      (net k).isOk200 = false) :
    fetch_file net is_cn cn_cdn_list global_cdn_list path =
      (Except.error ("无法下载文件: " ++ path),
       3 * (if is_cn then cn_cdn_list else global_cdn_list).length) := by
  have h3 := @tryRounds_all_fail net (if is_cn then cn_cdn_list else global_cdn_list) 3 0
    (fun j h1 h2 => h j (by omega))
  simp only [fetch_file]
  rw [h3]
  simp

/-- Witness for C2 at a concrete run: two endpoints, every request
answered with status 404, six requests issued, then the error names the
path. -/
theorem fetch_file_all_fail_witness :
    fetch_file (fun _ => CallResult.resp 404 []) true ["cdnA", "cdnB"] [] "depot/file.manifest" =
      (Except.error ("无法下载文件: " ++ "depot/file.manifest"), 6) := by
  have h := fetch_file_all_fail (fun _ => CallResult.resp 404 []) true ["cdnA", "cdnB"] []
    "depot/file.manifest" (by decide)
  simpa using h

/-! ## Claim theorems: repository selector -/

/-- C1: for any ordered candidate list split as `l1 ++ r :: l2` (candidate
identifiers are owner/name strings, so the winner `r` is non-empty), if
`r`'s branch lookup succeeds with timestamp `d` and sha `sh`, every
successful lookup before `r` has a strictly smaller timestamp and every
successful lookup after `r` has a timestamp `≤ d`, then
`get_latest_repo_info` returns exactly `r`'s record.  This yields the
maximal candidate irrespective of its position when timestamps are
distinct, and the first-seen candidate on equal maximal timestamps, since
the comparison is strict `>`. -/
theorem get_latest_first_max (query : String → BranchResult) (l1 l2 : List String)
    (r : String) (d : Int) (sh : String)
    (hr : r ≠ "") (hq : query r = BranchResult.ok d sh)
    (h1 : ∀ x ∈ l1, (query x).dateLt d = true)
    (h2 : ∀ x ∈ l2, (query x).dateLe d = true) :
    get_latest_repo_info query (l1 ++ r :: l2) = some ⟨r, d, sh⟩ := by
  unfold get_latest_repo_info
  rw [List.foldl_append, List.foldl_cons]
  have hs : ∀ x, (l1.foldl (selStep query) ⟨none, none, none⟩).latest_date = some x → x < d :=
    foldl_selStep_dateLt l1 ⟨none, none, none⟩ h1 (by intro x hx; simp at hx)
  rw [selStep_wins hs hq, foldl_selStep_keeps l2 h2]
  simp [hr]

/-- Witness for C1: three candidates where the middle one has the latest
timestamp and the last one fails; the middle candidate is returned. -/
theorem get_latest_first_max_witness :
    get_latest_repo_info
      (fun x => if x = "b" then BranchResult.ok 9 "s2"
        else if x = "a" then BranchResult.ok 5 "s1" else BranchResult.exn "net")
      ["a", "b", "c"] = some ⟨"b", 9, "s2"⟩ :=
  get_latest_first_max _ ["a"] ["c"] "b" 9 "s2" (by decide) (by decide)
    (by decide) (by decide)

/-- C6: a failed branch lookup (exception, non-200 status, or a 200 body
without commit data) never aborts the scan: `get_latest_repo_info`
computes the same result as on the sublist of successfully queried
candidates, so it returns the best among those. -/
theorem get_latest_skips_failed_candidates (query : String → BranchResult)
    (repos : List String) :
    get_latest_repo_info query repos =
      get_latest_repo_info query (repos.filter (fun r => (query r).isOkB)) := by
  unfold get_latest_repo_info
  rw [foldl_selStep_filter]

/-- C8: when no candidate's branch lookup succeeds, the selector returns
`none` and `handle_depot_files` returns an empty depot-key list and an
empty depot map, leaves the store and the downloaded set untouched, and
performs no branch, tree or content fetch (empty trace). -/
theorem no_match_empty_pipeline (env : Env) (fs0 : List (String × List Nat))
    (dl0 : List String)
    (h : ∀ r ∈ env.repos, (env.query r).isOkB = false) :
    get_latest_repo_info env.query env.repos = none ∧
    handle_depot_files env fs0 dl0 = Except.ok ⟨[], [], fs0, dl0, []⟩ := by
  have hnone : get_latest_repo_info env.query env.repos = none := by
    unfold get_latest_repo_info
    rw [foldl_selStep_of_no_ok env.repos ⟨none, none, none⟩ h]
  refine ⟨hnone, ?_⟩
  unfold handle_depot_files
  rw [hnone]

/-- Witness for C8: one candidate answering 404; the run returns the empty
results with an empty trace. -/
theorem no_match_empty_pipeline_witness :
    get_latest_repo_info
      (fun _ => BranchResult.httpError 404) ["owner/repo"] = none ∧
    handle_depot_files
      ⟨["owner/repo"], fun _ => BranchResult.httpError 404, Except.ok (),
        Except.ok ["10_2.manifest"], fun _ => Except.ok [], fun _ => []⟩
      [("manifests/old.manifest", [1])] ["x"] =
      Except.ok ⟨[], [], [("manifests/old.manifest", [1])], ["x"], []⟩ :=
  no_match_empty_pipeline
    ⟨["owner/repo"], fun _ => BranchResult.httpError 404, Except.ok (),
      Except.ok ["10_2.manifest"], fun _ => Except.ok [], fun _ => []⟩
    [("manifests/old.manifest", [1])] ["x"] (by decide)

/-! ## Claim theorems: rate limit monitor -/

/-- C7: `check_rate_limit` never raises — a transport error and a non-200
status both produce the error marker with a descriptive message — and on
a 200 response with `rate = {remaining: 10, limit: 60, reset: 1700000000,
used: 50}` it returns `remaining = 10`, `limit = 60`, `used = 50` and a
non-empty formatted reset string. -/
theorem check_rate_limit_spec :
    (∀ e, check_rate_limit (Except.error e) =
      RateLimitResult.error ("Rate limit check failed: " ++ e)) ∧
    (∀ resp : RateResp, resp.status_code ≠ 200 →
      check_rate_limit (Except.ok resp) =
        RateLimitResult.error
          ("GitHub rate limit check failed with status " ++ toString resp.status_code)) ∧
    (check_rate_limit
        (Except.ok ⟨200, ⟨some ⟨some 10, some 60, some 1700000000, some 50⟩⟩⟩) =
      RateLimitResult.ok
        ⟨60, 10, 1700000000, 50, strftimeYmdHMS 1700000000, "<t:1700000000:R>"⟩ ∧
      strftimeYmdHMS 1700000000 ≠ "") := by
  refine ⟨fun e => rfl, fun resp h => ?_, by decide⟩
  simp [check_rate_limit, h]

/-- Witness for C7 at a concrete failing status: a 500 response yields the
error marker naming the status. -/
theorem check_rate_limit_spec_witness :
    check_rate_limit (Except.ok ⟨500, ⟨none⟩⟩) =
      RateLimitResult.error "GitHub rate limit check failed with status 500" := by
  have h := check_rate_limit_spec.2.1 ⟨500, ⟨none⟩⟩ (by decide)
  simpa using h

/-- C10: a 200 response whose body lacks the `rate` object, or whose
`rate` object lacks every field, yields a success-shaped status with the
defaults `remaining = 0`, `limit = 60`, `reset = 0`, `used = 0` — not the
error marker, so a caller testing for the error key treats it as a valid
quota report. -/
theorem check_rate_limit_missing_fields :
    check_rate_limit (Except.ok ⟨200, ⟨none⟩⟩) =
      RateLimitResult.ok ⟨60, 0, 0, 0, strftimeYmdHMS 0, "<t:0:R>"⟩ ∧
    check_rate_limit (Except.ok ⟨200, ⟨some ⟨none, none, none, none⟩⟩⟩) =
      RateLimitResult.ok ⟨60, 0, 0, 0, strftimeYmdHMS 0, "<t:0:R>"⟩ ∧
    (check_rate_limit (Except.ok ⟨200, ⟨none⟩⟩)).isError = false :=
  ⟨rfl, rfl, rfl⟩

/-! ## Unfolding lemmas for the tree walker -/

theorem walk_nil (env : Env) (st : WalkSt) : walk env [] st = Except.ok st := rfl

theorem walk_cons_manifest_skip {env : Env} {st : WalkSt} {p : String} {rest : List String}
    (hm : strEndsWith p ".manifest" = true)
    (he : (lookupFs st.fs (savePath p)).isSome = true) :
    walk env (p :: rest) st =
      walk env rest { st with depot_map := updMap st.depot_map p } := by
  simp only [walk, hm, he, if_true, if_pos]

theorem walk_cons_manifest_fetch {env : Env} {st : WalkSt} {p : String} {rest : List String}
    {c : List Nat}
    (hm : strEndsWith p ".manifest" = true)
    (he : (lookupFs st.fs (savePath p)).isSome = false)
    (hf : env.fetch p = Except.ok c) :
    walk env (p :: rest) st =
      walk env rest { st with
        fs := setFs st.fs (savePath p) c,
        downloaded := st.downloaded ++ [p],
        depot_map := updMap st.depot_map p,
        trace := st.trace ++ [NetEvent.content p] } := by
  simp only [walk, hm, he, hf, if_true, Bool.false_eq_true, if_false]

theorem walk_cons_manifest_fetch_err {env : Env} {st : WalkSt} {p : String}
    {rest : List String} {e : String}
    (hm : strEndsWith p ".manifest" = true)
    (he : (lookupFs st.fs (savePath p)).isSome = false)
    (hf : env.fetch p = Except.error e) :
    walk env (p :: rest) st = Except.error e := by
  simp only [walk, hm, he, hf, if_true, Bool.false_eq_true, if_false]

theorem walk_cons_key {env : Env} {st : WalkSt} {p : String} {rest : List String}
    {c : List Nat}
    (hm : strEndsWith p ".manifest" = false)
    (hk : containsSub (strToLower p) "key.vdf" = true)
    (hf : env.fetch p = Except.ok c) :
    walk env (p :: rest) st =
      walk env rest { st with
        depot_list := st.depot_list ++ env.parse_key_file c,
        trace := st.trace ++ [NetEvent.content p] } := by
  simp only [walk, hm, hk, hf, if_true, Bool.false_eq_true, if_false]

theorem walk_cons_key_err {env : Env} {st : WalkSt} {p : String} {rest : List String}
    {e : String}
    (hm : strEndsWith p ".manifest" = false)
    (hk : containsSub (strToLower p) "key.vdf" = true)
    (hf : env.fetch p = Except.error e) :
    walk env (p :: rest) st = Except.error e := by
  simp only [walk, hm, hk, hf, if_true, Bool.false_eq_true, if_false]

theorem walk_cons_other {env : Env} {st : WalkSt} {p : String} {rest : List String}
    (hm : strEndsWith p ".manifest" = false)
    (hk : containsSub (strToLower p) "key.vdf" = false) :
    walk env (p :: rest) st = walk env rest st := by
  simp only [walk, hm, hk, Bool.false_eq_true, if_false]

/-! ## Claim theorems: tree walker frame effects and malformed names -/

/-- C5: for a tree entry ending in `.manifest` whose destination already
exists, the walker skips the CDN fetch and changes no state — the store,
the downloaded set and the trace are untouched; in both the already-exists
branch and the download branch the filename is parsed and, on success,
the manifest id is appended to the depot map entry (created if absent),
which is exactly `updMap`; the walk then continues with the rest. -/
theorem walk_manifest_frame (env : Env) (st : WalkSt) (p : String) (rest : List String)
    (hm : strEndsWith p ".manifest" = true) :
    ((lookupFs st.fs (savePath p)).isSome = true →
      walk env (p :: rest) st =
        walk env rest { st with depot_map := updMap st.depot_map p }) ∧
    (∀ c, (lookupFs st.fs (savePath p)).isSome = false → env.fetch p = Except.ok c →
      walk env (p :: rest) st =
        walk env rest { st with
          fs := setFs st.fs (savePath p) c,
          downloaded := st.downloaded ++ [p],
          depot_map := updMap st.depot_map p,
          trace := st.trace ++ [NetEvent.content p] }) :=
  ⟨fun he => walk_cons_manifest_skip hm he,
   fun _c he hf => walk_cons_manifest_fetch hm he hf⟩

/-- Witness for C5: both branches at concrete states — an existing
destination is skipped with only the depot map updated, and a missing
destination is fetched, written and tracked. -/
theorem walk_manifest_frame_witness :
    (walk ⟨["o/r"], fun _ => BranchResult.ok 1 "s", Except.ok (), Except.ok [],
        fun _ => Except.ok [3], fun _ => []⟩
      ["7_8.manifest"]
      ⟨[("manifests/7_8.manifest", [9])], [], [], [], []⟩ =
      Except.ok ⟨[("manifests/7_8.manifest", [9])], [], [], [("7", ["8"])], []⟩) ∧
    (walk ⟨["o/r"], fun _ => BranchResult.ok 1 "s", Except.ok (), Except.ok [],
        fun _ => Except.ok [3], fun _ => []⟩
      ["7_8.manifest"]
      ⟨[], [], [], [], []⟩ =
      Except.ok ⟨[("manifests/7_8.manifest", [3])], ["7_8.manifest"], [],
        [("7", ["8"])], [NetEvent.content "7_8.manifest"]⟩) := by
  constructor
  · have h := (walk_manifest_frame
      ⟨["o/r"], fun _ => BranchResult.ok 1 "s", Except.ok (), Except.ok [],
        fun _ => Except.ok [3], fun _ => []⟩
      ⟨[("manifests/7_8.manifest", [9])], [], [], [], []⟩
      "7_8.manifest" [] (by decide)).1 (by decide)
    rw [h]; rfl
  · have h := (walk_manifest_frame
      ⟨["o/r"], fun _ => BranchResult.ok 1 "s", Except.ok (), Except.ok [],
        fun _ => Except.ok [3], fun _ => []⟩
      ⟨[], [], [], [], []⟩
      "7_8.manifest" [] (by decide)).2 [3] (by decide) rfl
    rw [h]; rfl

/-- C9: a `.manifest` filename that does not match the
`<depotId>_<manifestId>.manifest` convention — such as `readme.manifest`
or `1000.manifest`, which lack the `_` separator — parses to
`(none, none)`, contributes nothing to the depot map (`updMap` is the
identity on it), and the walk continues over the remaining entries in
both the already-exists branch and the download branch rather than
failing. -/
theorem malformed_name_skipped :
    parse_manifest_filename "readme.manifest" = (none, none) ∧
    parse_manifest_filename "1000.manifest" = (none, none) ∧
    (∀ mp p, parse_manifest_filename p = (none, none) → updMap mp p = mp) ∧
    (∀ (env : Env) (st : WalkSt) (p : String) (rest : List String),
      strEndsWith p ".manifest" = true →
      parse_manifest_filename p = (none, none) →
      ((lookupFs st.fs (savePath p)).isSome = true →
        walk env (p :: rest) st = walk env rest st) ∧
      (∀ c, (lookupFs st.fs (savePath p)).isSome = false → env.fetch p = Except.ok c →
        walk env (p :: rest) st =
          walk env rest { st with
            fs := setFs st.fs (savePath p) c,
            downloaded := st.downloaded ++ [p],
            trace := st.trace ++ [NetEvent.content p] })) := by
  have hupd : ∀ (mp : List (String × List String)) (p : String),
      parse_manifest_filename p = (none, none) → updMap mp p = mp := by
    intro mp p hp
    unfold updMap
    rw [hp]
  refine ⟨by decide, by decide, hupd, ?_⟩
  intro env st p rest hm hp
  constructor
  · intro he
    rw [walk_cons_manifest_skip hm he, hupd st.depot_map p hp]
  · intro c he hf
    rw [walk_cons_manifest_fetch hm he hf, hupd st.depot_map p hp]

/-- Witness for C9: a malformed manifest name in front of a well-formed
one is downloaded but leaves the depot map without an entry for it, and
the pipeline continues to the next entry. -/
theorem malformed_name_skipped_witness :
    walk ⟨["o/r"], fun _ => BranchResult.ok 1 "s", Except.ok (), Except.ok [],
        fun _ => Except.ok [], fun _ => []⟩
      ["readme.manifest"] ⟨[("manifests/readme.manifest", [])], [], [], [], []⟩ =
      Except.ok ⟨[("manifests/readme.manifest", [])], [], [], [], []⟩ := by
  have h := ((malformed_name_skipped.2.2.2)
    ⟨["o/r"], fun _ => BranchResult.ok 1 "s", Except.ok (), Except.ok [],
      fun _ => Except.ok [], fun _ => []⟩
    ⟨[("manifests/readme.manifest", [])], [], [], [], []⟩
    "readme.manifest" [] (by decide) (by decide)).1 (by decide)
  rw [h]
  rfl

/-! ## Store lemmas -/

theorem lookupFs_setFs : ∀ (fs : List (String × List Nat)) (q : String) (c : List Nat)
    (r : String), lookupFs (setFs fs q c) r = if r = q then some c else lookupFs fs r := by
  intro fs
  induction fs with
  | nil =>
    intro q c r
    simp only [setFs, lookupFs]
    by_cases h : r = q
    · subst h; simp
    · have h' : ¬ q = r := fun hh => h hh.symm
      simp [h, h']
  | cons kv rest ih =>
    intro q c r
    obtain ⟨k, v⟩ := kv
    simp only [setFs]
    by_cases hkq : k = q
    · subst hkq
      simp only [if_pos rfl, lookupFs]
      by_cases hkr : k = r
      · subst hkr; simp
      · have h1 : ¬ r = k := fun hh => hkr hh.symm
        simp [hkr, h1]
    · simp only [if_neg hkq, lookupFs, ih q c r]
      by_cases hkr : k = r
      · subst hkr
        have h2 : ¬ k = q := hkq
        simp [h2]
      · simp [hkr]

/-! ## Invariants of the tree walk -/

/-- Existing store entries stay present across a successful walk (files
are written, never removed). -/
theorem walk_fs_mono {env : Env} : ∀ (l : List String) (st st' : WalkSt),
    walk env l st = Except.ok st' →
    ∀ q, (lookupFs st.fs q).isSome = true → (lookupFs st'.fs q).isSome = true := by
  intro l
  induction l with
  | nil =>
    intro st st' hw q hq
    rw [walk_nil] at hw
    cases hw
    exact hq
  | cons p rest ih =>
    intro st st' hw q hq
    cases hm : strEndsWith p ".manifest" with
    | true =>
      cases he : (lookupFs st.fs (savePath p)).isSome with
      | true =>
        rw [walk_cons_manifest_skip hm he] at hw
        exact ih _ _ hw q hq
      | false =>
        cases hf : env.fetch p with
        | error e => rw [walk_cons_manifest_fetch_err hm he hf] at hw; cases hw
        | ok c =>
          rw [walk_cons_manifest_fetch hm he hf] at hw
          refine ih _ _ hw q ?_
          show (lookupFs (setFs st.fs (savePath p) c) q).isSome = true
          rw [lookupFs_setFs]
          by_cases hq' : q = savePath p
          · simp [hq']
          · simpa [hq'] using hq
    | false =>
      cases hk : containsSub (strToLower p) "key.vdf" with
      | true =>
        cases hf : env.fetch p with
        | error e => rw [walk_cons_key_err hm hk hf] at hw; cases hw
        | ok c =>
          rw [walk_cons_key hm hk hf] at hw
          exact ih _ _ hw q hq
      | false =>
        rw [walk_cons_other hm hk] at hw
        exact ih _ _ hw q hq

/-- After a successful walk, every manifest entry of the tree has a file
at its save path (it was either already present or just written). -/
theorem walk_covers_manifests {env : Env} : ∀ (l : List String) (st st' : WalkSt),
    walk env l st = Except.ok st' →
    ∀ p ∈ l, strEndsWith p ".manifest" = true →
      (lookupFs st'.fs (savePath p)).isSome = true := by
  intro l
  induction l with
  | nil => intro st st' _ p hp; cases hp
  | cons a rest ih =>
    intro st st' hw p hp hpm
    cases hm : strEndsWith a ".manifest" with
    | true =>
      cases he : (lookupFs st.fs (savePath a)).isSome with
      | true =>
        rw [walk_cons_manifest_skip hm he] at hw
        rcases List.mem_cons.mp hp with hpa | hpr
        · subst hpa
          exact walk_fs_mono _ _ _ hw _ he
        · exact ih _ _ hw p hpr hpm
      | false =>
        cases hf : env.fetch a with
        | error e => rw [walk_cons_manifest_fetch_err hm he hf] at hw; cases hw
        | ok c =>
          rw [walk_cons_manifest_fetch hm he hf] at hw
          rcases List.mem_cons.mp hp with hpa | hpr
          · subst hpa
            refine walk_fs_mono _ _ _ hw _ ?_
            show (lookupFs (setFs st.fs (savePath p) c) (savePath p)).isSome = true
            rw [lookupFs_setFs]
            simp
          · exact ih _ _ hw p hpr hpm
    | false =>
      have hpa : p ≠ a := fun hh => by rw [hh, hm] at hpm; cases hpm
      have hpr : p ∈ rest := by
        rcases List.mem_cons.mp hp with h1 | h1
        · exact absurd h1 hpa
        · exact h1
      cases hk : containsSub (strToLower a) "key.vdf" with
      | true =>
        cases hf : env.fetch a with
        | error e => rw [walk_cons_key_err hm hk hf] at hw; cases hw
        | ok c =>
          rw [walk_cons_key hm hk hf] at hw
          exact ih _ _ hw p hpr hpm
      | false =>
        rw [walk_cons_other hm hk] at hw
        exact ih _ _ hw p hpr hpm

/-- A successful walk implies every key-file fetch it performed succeeded
(key files are fetched unconditionally, so their fetch outcome is pinned). -/
theorem walk_key_fetch_ok {env : Env} : ∀ (l : List String) (st st' : WalkSt),
    walk env l st = Except.ok st' →
    ∀ p ∈ l, strEndsWith p ".manifest" = false →
      containsSub (strToLower p) "key.vdf" = true →
      ∃ c, env.fetch p = Except.ok c := by
  intro l
  induction l with
  | nil => intro st st' _ p hp; cases hp
  | cons a rest ih =>
    intro st st' hw p hp hpm hpk
    cases hm : strEndsWith a ".manifest" with
    | true =>
      have hpa : p ≠ a := fun hh => by rw [hh, hm] at hpm; cases hpm
      have hpr : p ∈ rest := by
        rcases List.mem_cons.mp hp with h1 | h1
        · exact absurd h1 hpa
        · exact h1
      cases he : (lookupFs st.fs (savePath a)).isSome with
      | true =>
        rw [walk_cons_manifest_skip hm he] at hw
        exact ih _ _ hw p hpr hpm hpk
      | false =>
        cases hf : env.fetch a with
        | error e => rw [walk_cons_manifest_fetch_err hm he hf] at hw; cases hw
        | ok c =>
          rw [walk_cons_manifest_fetch hm he hf] at hw
          exact ih _ _ hw p hpr hpm hpk
    | false =>
      cases hk : containsSub (strToLower a) "key.vdf" with
      | true =>
        cases hf : env.fetch a with
        | error e => rw [walk_cons_key_err hm hk hf] at hw; cases hw
        | ok c =>
          rw [walk_cons_key hm hk hf] at hw
          rcases List.mem_cons.mp hp with hpa | hpr
          · subst hpa
            exact ⟨c, hf⟩
          · exact ih _ _ hw p hpr hpm hpk
      | false =>
        rcases List.mem_cons.mp hp with hpa | hpr
        · subst hpa
          rw [hk] at hpk; cases hpk
        · rw [walk_cons_other hm hk] at hw
          exact ih _ _ hw p hpr hpm hpk

/-- The depot map built by the walk over the manifest entries, before the
final sort (a pure fold, independent of the store and of fetch results). -/
def mapFoldTree (mp : List (String × List String)) (l : List String) :
    List (String × List String) :=
  l.foldl (fun mp p => if strEndsWith p ".manifest" then updMap mp p else mp) mp

/-- A successful walk produces exactly the fold of `updMap` over the
manifest entries. -/
theorem walk_depot_map {env : Env} : ∀ (l : List String) (st st' : WalkSt),
    walk env l st = Except.ok st' → st'.depot_map = mapFoldTree st.depot_map l := by
  intro l
  induction l with
  | nil =>
    intro st st' hw
    rw [walk_nil] at hw
    cases hw
    rfl
  | cons a rest ih =>
    intro st st' hw
    cases hm : strEndsWith a ".manifest" with
    | true =>
      cases he : (lookupFs st.fs (savePath a)).isSome with
      | true =>
        rw [walk_cons_manifest_skip hm he] at hw
        rw [ih _ _ hw]
        simp [mapFoldTree, hm]
      | false =>
        cases hf : env.fetch a with
        | error e => rw [walk_cons_manifest_fetch_err hm he hf] at hw; cases hw
        | ok c =>
          rw [walk_cons_manifest_fetch hm he hf] at hw
          rw [ih _ _ hw]
          simp [mapFoldTree, hm]
    | false =>
      cases hk : containsSub (strToLower a) "key.vdf" with
      | true =>
        cases hf : env.fetch a with
        | error e => rw [walk_cons_key_err hm hk hf] at hw; cases hw
        | ok c =>
          rw [walk_cons_key hm hk hf] at hw
          rw [ih _ _ hw]
          simp [mapFoldTree, hm]
      | false =>
        rw [walk_cons_other hm hk] at hw
        rw [ih _ _ hw]
        simp [mapFoldTree, hm]

/-- When every manifest entry already has its file and every key-file
fetch succeeds, the walk succeeds without touching the store or the
downloaded set, still building the same depot map. -/
theorem walk_all_present {env : Env} : ∀ (l : List String) (st : WalkSt),
    (∀ p ∈ l, strEndsWith p ".manifest" = true →
      (lookupFs st.fs (savePath p)).isSome = true) →
    (∀ p ∈ l, strEndsWith p ".manifest" = false →
      containsSub (strToLower p) "key.vdf" = true →
      ∃ c, env.fetch p = Except.ok c) →
    ∃ st', walk env l st = Except.ok st' ∧ st'.fs = st.fs ∧
      st'.downloaded = st.downloaded ∧
      st'.depot_map = mapFoldTree st.depot_map l := by
  intro l
  induction l with
  | nil =>
    intro st _ _
    exact ⟨st, rfl, rfl, rfl, rfl⟩
  | cons a rest ih =>
    intro st hM hK
    cases hm : strEndsWith a ".manifest" with
    | true =>
      have he : (lookupFs st.fs (savePath a)).isSome = true := hM a (by simp) hm
      obtain ⟨st', hw, hfs, hdl, hmp⟩ :=
        ih { st with depot_map := updMap st.depot_map a }
          (fun p hp hpm => hM p (by simp [hp]) hpm)
          (fun p hp hpm hpk => hK p (by simp [hp]) hpm hpk)
      refine ⟨st', ?_, hfs, hdl, ?_⟩
      · rw [walk_cons_manifest_skip hm he]
        exact hw
      · rw [hmp]
        simp [mapFoldTree, hm]
    | false =>
      cases hk : containsSub (strToLower a) "key.vdf" with
      | true =>
        obtain ⟨c, hf⟩ := hK a (by simp) hm hk
        obtain ⟨st', hw, hfs, hdl, hmp⟩ :=
          ih { st with
              depot_list := st.depot_list ++ env.parse_key_file c,
              trace := st.trace ++ [NetEvent.content a] }
            (fun p hp hpm => hM p (by simp [hp]) hpm)
            (fun p hp hpm hpk => hK p (by simp [hp]) hpm hpk)
        refine ⟨st', ?_, hfs, hdl, ?_⟩
        · rw [walk_cons_key hm hk hf]
          exact hw
        · rw [hmp]
          simp [mapFoldTree, hm]
      | false =>
        obtain ⟨st', hw, hfs, hdl, hmp⟩ :=
          ih st (fun p hp hpm => hM p (by simp [hp]) hpm)
            (fun p hp hpm hpk => hK p (by simp [hp]) hpm hpk)
        refine ⟨st', ?_, hfs, hdl, ?_⟩
        · rw [walk_cons_other hm hk]
          exact hw
        · rw [hmp]
          simp [mapFoldTree, hm]

/-! ## Equations for `handle_depot_files` -/

theorem handle_eq_none (env : Env) (fs0 : List (String × List Nat)) (dl0 : List String)
    (h : get_latest_repo_info env.query env.repos = none) :
    handle_depot_files env fs0 dl0 = Except.ok ⟨[], [], fs0, dl0, []⟩ := by
  unfold handle_depot_files
  rw [h]

theorem handle_eq_branch_err (env : Env) (fs0 : List (String × List Nat))
    (dl0 : List String) (info : RepoInfo) (e : String)
    (h : get_latest_repo_info env.query env.repos = some info)
    (hb : env.branch = Except.error e) :
    handle_depot_files env fs0 dl0 = Except.error e := by
  unfold handle_depot_files
  rw [h, hb]

theorem handle_eq_tree_err (env : Env) (fs0 : List (String × List Nat))
    (dl0 : List String) (info : RepoInfo) (u : Unit) (e : String)
    (h : get_latest_repo_info env.query env.repos = some info)
    (hb : env.branch = Except.ok u)
    (ht : env.tree = Except.error e) :
    handle_depot_files env fs0 dl0 = Except.error e := by
  unfold handle_depot_files
  rw [h, hb, ht]

theorem handle_eq_walk (env : Env) (fs0 : List (String × List Nat)) (dl0 : List String)
    (info : RepoInfo) (u : Unit) (tree : List String)
    (h : get_latest_repo_info env.query env.repos = some info)
    (hb : env.branch = Except.ok u)
    (ht : env.tree = Except.ok tree) :
    handle_depot_files env fs0 dl0 =
      match walk env tree ⟨fs0, dl0, [], [], [NetEvent.branch, NetEvent.tree]⟩ with
      | .error e => .error e
      | .ok st =>
        .ok ⟨st.depot_list, st.depot_map.map (fun kv => (kv.1, sortManifests kv.2)),
             st.fs, st.downloaded, st.trace⟩ := by
  unfold handle_depot_files
  rw [h, hb, ht]

/-! ## Claim theorem: idempotence of the pipeline -/

/-- C4: a second `handle_depot_files` run over the same environment,
started from the store the first successful run left behind, downloads
zero manifest files (its downloaded-this-run set is empty, every manifest
destination already existing), leaves the store unchanged, and returns
the same depot map as the first run. -/
theorem pipeline_idempotent (env : Env) (fs0 : List (String × List Nat))
    (res1 : RunResult)
    (h1 : handle_depot_files env fs0 [] = Except.ok res1) :
    ∃ res2 : RunResult, handle_depot_files env res1.fs [] = Except.ok res2 ∧
      res2.downloaded = [] ∧ res2.depot_map = res1.depot_map ∧ res2.fs = res1.fs := by
  cases hrepo : get_latest_repo_info env.query env.repos with
  | none =>
    rw [handle_eq_none env fs0 [] hrepo] at h1
    injection h1 with h1'
    subst h1'
    exact ⟨⟨[], [], fs0, [], []⟩, handle_eq_none env fs0 [] hrepo, rfl, rfl, rfl⟩
  | some info =>
    cases hb : env.branch with
    | error e =>
      rw [handle_eq_branch_err env fs0 [] info e hrepo hb] at h1
      cases h1
    | ok u =>
      cases ht : env.tree with
      | error e =>
        rw [handle_eq_tree_err env fs0 [] info u e hrepo hb ht] at h1
        cases h1
      | ok tree =>
        rw [handle_eq_walk env fs0 [] info u tree hrepo hb ht] at h1
        cases hw : walk env tree ⟨fs0, [], [], [], [NetEvent.branch, NetEvent.tree]⟩ with
        | error e => rw [hw] at h1; cases h1
        | ok st1 =>
          rw [hw] at h1
          injection h1 with h1'
          subst h1'
          obtain ⟨st2, hw2, hfs2, hdl2, hmp2⟩ := walk_all_present tree
            ⟨st1.fs, [], [], [], [NetEvent.branch, NetEvent.tree]⟩
            (fun p hp hpm => walk_covers_manifests tree _ _ hw p hp hpm)
            (fun p hp hpm hpk => walk_key_fetch_ok tree _ _ hw p hp hpm hpk)
          have e2 := handle_eq_walk env st1.fs [] info u tree hrepo hb ht
          rw [hw2] at e2
          refine ⟨⟨st2.depot_list,
            st2.depot_map.map (fun kv => (kv.1, sortManifests kv.2)),
            st2.fs, st2.downloaded, st2.trace⟩, e2, hdl2, ?_, hfs2⟩
          have hm1 := walk_depot_map tree _ _ hw
          show st2.depot_map.map (fun kv => (kv.1, sortManifests kv.2)) =
            st1.depot_map.map (fun kv => (kv.1, sortManifests kv.2))
          rw [hmp2, hm1]

/-- Witness for C4 at a concrete run: one manifest in the tree, first run
downloads it, the second run started from the resulting store downloads
nothing and reproduces the depot map. -/
theorem pipeline_idempotent_witness :
    ∃ res2 : RunResult,
      handle_depot_files
        ⟨["o/r"], fun _ => BranchResult.ok 1 "s", Except.ok (),
          Except.ok ["1_2.manifest"], fun _ => Except.ok [7], fun _ => []⟩
        [("manifests/1_2.manifest", [7])] [] = Except.ok res2 ∧
      res2.downloaded = [] ∧ res2.depot_map = [("1", ["2"])] ∧
      res2.fs = [("manifests/1_2.manifest", [7])] := by
  have h := pipeline_idempotent
    ⟨["o/r"], fun _ => BranchResult.ok 1 "s", Except.ok (),
      Except.ok ["1_2.manifest"], fun _ => Except.ok [7], fun _ => []⟩
    []
    ⟨[], [("1", ["2"])], [("manifests/1_2.manifest", [7])], ["1_2.manifest"],
      [NetEvent.branch, NetEvent.tree, NetEvent.content "1_2.manifest"]⟩
    rfl
  simpa using h

/-! ## Sortedness of the final per-depot sort -/

theorem mem_insertDesc {x : String} : ∀ {l : List String} {a : String},
    a ∈ insertDesc x l → a = x ∨ a ∈ l := by
  intro l
  induction l with
  | nil =>
    intro a ha
    simp [insertDesc] at ha
    exact Or.inl ha
  | cons y ys ih =>
    intro a ha
    by_cases hc : intVal y < intVal x
    · simp only [insertDesc, if_pos hc] at ha
      rcases List.mem_cons.mp ha with h | h
      · exact Or.inl h
      · exact Or.inr h
    · simp only [insertDesc, if_neg hc] at ha
      rcases List.mem_cons.mp ha with h | h
      · exact Or.inr (by simp [h])
      · rcases ih h with h' | h'
        · exact Or.inl h'
        · exact Or.inr (by simp [h'])

theorem pairwise_insertDesc {x : String} : ∀ {l : List String},
    List.Pairwise (fun a b => intVal b ≤ intVal a) l →
    List.Pairwise (fun a b => intVal b ≤ intVal a) (insertDesc x l) := by
  intro l
  induction l with
  | nil => intro _; simp [insertDesc]
  | cons y ys ih =>
    intro h
    rw [List.pairwise_cons] at h
    obtain ⟨hy, hys⟩ := h
    by_cases hc : intVal y < intVal x
    · simp only [insertDesc, if_pos hc]
      rw [List.pairwise_cons]
      refine ⟨?_, ?_⟩
      · intro b hb
        rcases List.mem_cons.mp hb with hb | hb
        · subst hb; omega
        · have := hy b hb; omega
      · rw [List.pairwise_cons]
        exact ⟨hy, hys⟩
    · simp only [insertDesc, if_neg hc]
      rw [List.pairwise_cons]
      refine ⟨?_, ih hys⟩
      intro b hb
      rcases mem_insertDesc hb with hb | hb
      · subst hb; omega
      · exact hy b hb

theorem pairwise_sortManifests (l : List String) :
    List.Pairwise (fun a b => intVal b ≤ intVal a) (sortManifests l) := by
  suffices h : ∀ (acc : List String),
      List.Pairwise (fun a b => intVal b ≤ intVal a) acc →
      List.Pairwise (fun a b => intVal b ≤ intVal a)
        (l.foldl (fun acc x => insertDesc x acc) acc) from h [] (by simp)
  induction l with
  | nil => intro acc h; exact h
  | cons a l ih => intro acc h; exact ih _ (pairwise_insertDesc h)

/-- Every depot list in a successful run's map is the image of the final
sort. -/
theorem handle_map_is_sorted_image (env : Env) (fs0 : List (String × List Nat))
    (dl0 : List String) (res : RunResult)
    (h : handle_depot_files env fs0 dl0 = Except.ok res) :
    ∀ d ml, (d, ml) ∈ res.depot_map → ∃ v, ml = sortManifests v := by
  cases hrepo : get_latest_repo_info env.query env.repos with
  | none =>
    rw [handle_eq_none env fs0 dl0 hrepo] at h
    injection h with h'
    subst h'
    intro d ml hml
    simp at hml
  | some info =>
    cases hb : env.branch with
    | error e =>
      rw [handle_eq_branch_err env fs0 dl0 info e hrepo hb] at h
      cases h
    | ok u =>
      cases ht : env.tree with
      | error e =>
        rw [handle_eq_tree_err env fs0 dl0 info u e hrepo hb ht] at h
        cases h
      | ok tree =>
        rw [handle_eq_walk env fs0 dl0 info u tree hrepo hb ht] at h
        cases hw : walk env tree ⟨fs0, dl0, [], [], [NetEvent.branch, NetEvent.tree]⟩ with
        | error e => rw [hw] at h; cases h
        | ok st =>
          rw [hw] at h
          injection h with h'
          subst h'
          intro d ml hml
          obtain ⟨kv, hkv, heq⟩ := List.mem_map.mp hml
          injection heq with h1 h2
          exact ⟨kv.2, h2.symm⟩

/-! ## Claim theorems: depot map ordering -/

/-- C3 (amended): every depot's manifest-id sequence in the returned map
is sorted in non-increasing order of the integer value of each identifier
— strictly descending whenever those integer values are pairwise distinct
— and the claim's example holds: tree entries `1000_50.manifest`,
`1000_75.manifest`, `1000_60.manifest` produce depot `"1000"` mapped to
`["75", "60", "50"]`.  (Strictness for all inputs fails; see the
counterexample with equal integer values.) -/
theorem depot_map_sorted_desc :
    (∀ (env : Env) (fs0 : List (String × List Nat)) (dl0 : List String)
      (res : RunResult),
      handle_depot_files env fs0 dl0 = Except.ok res →
      ∀ d ml, (d, ml) ∈ res.depot_map →
        List.Pairwise (fun a b => intVal b ≤ intVal a) ml ∧
        (List.Pairwise (fun a b => intVal a ≠ intVal b) ml →
          List.Pairwise (fun a b => intVal b < intVal a) ml)) ∧
    depotMapOf (handle_depot_files
      ⟨["o/r"], fun _ => BranchResult.ok 1 "s", Except.ok (),
        Except.ok ["1000_50.manifest", "1000_75.manifest", "1000_60.manifest"],
        fun _ => Except.ok [], fun _ => []⟩ [] []) = [("1000", ["75", "60", "50"])] := by
  constructor
  · intro env fs0 dl0 res h d ml hml
    obtain ⟨v, rfl⟩ := handle_map_is_sorted_image env fs0 dl0 res h d ml hml
    refine ⟨pairwise_sortManifests v, ?_⟩
    intro hne
    exact ((pairwise_sortManifests v).and hne).imp
      (fun hab => lt_of_le_of_ne hab.1 (Ne.symm hab.2))
  · rfl

/-- Counterexample to C3 as stated: two well-formed manifest names whose
ids have equal integer value (`050` and `50`) end up adjacent in the
depot map, which is therefore not *strictly* descending by integer
value. -/
theorem depot_map_not_strictly_descending :
    depotMapOf (handle_depot_files
      ⟨["o/r"], fun _ => BranchResult.ok 1 "s", Except.ok (),
        Except.ok ["1000_050.manifest", "1000_50.manifest"],
        fun _ => Except.ok [], fun _ => []⟩ [] []) = [("1000", ["050", "50"])] ∧
    ¬ List.Pairwise (fun a b => intVal b < intVal a) ["050", "50"] := by
  refine ⟨rfl, ?_⟩
  intro h
  rw [List.pairwise_cons] at h
  exact absurd (h.1 "50" (by simp)) (by decide)

/-- Witness for C3 (amended) at the claim's own example. -/
theorem depot_map_sorted_desc_witness :
    List.Pairwise (fun a b => intVal b ≤ intVal a) ["75", "60", "50"] ∧
    List.Pairwise (fun a b => intVal b < intVal a) ["75", "60", "50"] := by
  have h := depot_map_sorted_desc.1
    ⟨["o/r"], fun _ => BranchResult.ok 1 "s", Except.ok (),
      Except.ok ["1000_50.manifest", "1000_75.manifest", "1000_60.manifest"],
      fun _ => Except.ok [], fun _ => []⟩ [] []
    ⟨[], [("1000", ["75", "60", "50"])],
      [("manifests/1000_50.manifest", []), ("manifests/1000_75.manifest", []),
       ("manifests/1000_60.manifest", [])],
      ["1000_50.manifest", "1000_75.manifest", "1000_60.manifest"],
      [NetEvent.branch, NetEvent.tree, NetEvent.content "1000_50.manifest",
       NetEvent.content "1000_75.manifest", NetEvent.content "1000_60.manifest"]⟩
    rfl "1000" ["75", "60", "50"] (by simp)
  exact ⟨h.1, h.2 (by decide)⟩

end ManBot
